import Mathlib

/-!
# Secure File Integrity Monitor — verification of the stability/hashing core

Shallow embedding of `main.py` of habib-here/Secure-File-Integrity-Monitor.
File contents are byte lists (`List ℕ`, each byte `< 256` in intended use);
the filesystem and clock are passed explicitly as oracles; machine 32-bit
arithmetic is `Nat` arithmetic reduced modulo `2 ^ 32`.
-/

/-! ## Reference SHA-256 (FIPS 180-4), over byte lists -/

/-- Reduce a natural number to a 32-bit word. -/
def m32 (n : ℕ) : ℕ := n % 2 ^ 32

/-- Right rotation of a 32-bit word by `n` places. -/
def rotr (n x : ℕ) : ℕ := m32 ((x >>> n) ||| (x <<< (32 - n)))

/-- Bitwise complement of a 32-bit word. -/
def not32 (x : ℕ) : ℕ := 4294967295 - m32 x

/-- SHA-256 choice function. -/
def ch (e f g : ℕ) : ℕ := (e &&& f) ^^^ (not32 e &&& g)

/-- SHA-256 majority function. -/
def maj (a b c : ℕ) : ℕ := (a &&& b) ^^^ (a &&& c) ^^^ (b &&& c)

/-- SHA-256 big sigma 0. -/
def bsig0 (a : ℕ) : ℕ := rotr 2 a ^^^ rotr 13 a ^^^ rotr 22 a

/-- SHA-256 big sigma 1. -/
def bsig1 (e : ℕ) : ℕ := rotr 6 e ^^^ rotr 11 e ^^^ rotr 25 e

/-- SHA-256 small sigma 0. -/
def ssig0 (x : ℕ) : ℕ := rotr 7 x ^^^ rotr 18 x ^^^ (x >>> 3)

/-- SHA-256 small sigma 1. -/
def ssig1 (x : ℕ) : ℕ := rotr 17 x ^^^ rotr 19 x ^^^ (x >>> 10)

/-- The 64 SHA-256 round constants. -/
def shaK : List ℕ :=
  [0x428A2F98, 0x71374491, 0xB5C0FBCF, 0xE9B5DBA5, 0x3956C25B, 0x59F111F1, 0x923F82A4, 0xAB1C5ED5,
   0xD807AA98, 0x12835B01, 0x243185BE, 0x550C7DC3, 0x72BE5D74, 0x80DEB1FE, 0x9BDC06A7, 0xC19BF174,
   0xE49B69C1, 0xEFBE4786, 0x0FC19DC6, 0x240CA1CC, 0x2DE92C6F, 0x4A7484AA, 0x5CB0A9DC, 0x76F988DA,
   0x983E5152, 0xA831C66D, 0xB00327C8, 0xBF597FC7, 0xC6E00BF3, 0xD5A79147, 0x06CA6351, 0x14292967,
   0x27B70A85, 0x2E1B2138, 0x4D2C6DFC, 0x53380D13, 0x650A7354, 0x766A0ABB, 0x81C2C92E, 0x92722C85,
   0xA2BFE8A1, 0xA81A664B, 0xC24B8B70, 0xC76C51A3, 0xD192E819, 0xD6990624, 0xF40E3585, 0x106AA070,
   0x19A4C116, 0x1E376C08, 0x2748774C, 0x34B0BCB5, 0x391C0CB3, 0x4ED8AA4A, 0x5B9CCA4F, 0x682E6FF3,
   0x748F82EE, 0x78A5636F, 0x84C87814, 0x8CC70208, 0x90BEFFFA, 0xA4506CEB, 0xBEF9A3F7, 0xC67178F2]

/-- The SHA-256 initial hash value. -/
def shaH0 : List ℕ :=
  [0x6A09E667, 0xBB67AE85, 0x3C6EF372, 0xA54FF53A, 0x510E527F, 0x9B05688C, 0x1F83D9AB, 0x5BE0CD19]

/-- The eight 32-bit working variables of the compression function. -/
abbrev St8 := ℕ × ℕ × ℕ × ℕ × ℕ × ℕ × ℕ × ℕ

/-- One round of the SHA-256 compression function; `wk = (w_t, k_t)`. -/
def shaRound (st : St8) (wk : ℕ × ℕ) : St8 :=
  match st with
  | (a, b, c, d, e, f, g, h) =>
    let t1 := m32 (h + bsig1 e + ch e f g + wk.2 + wk.1)
    let t2 := m32 (bsig0 a + maj a b c)
    (m32 (t1 + t2), a, b, c, m32 (d + t1), e, f, g)

/-- Extend a message-schedule list by one word. -/
def scheduleStep (w : List ℕ) : List ℕ :=
  let n := w.length
  w ++ [m32 (ssig1 (w.getD (n - 2) 0) + w.getD (n - 7) 0 +
             ssig0 (w.getD (n - 15) 0) + w.getD (n - 16) 0)]

/-- Extend a message-schedule list by `k` words. -/
def schedule (w : List ℕ) : ℕ → List ℕ
  | 0 => w
  | k + 1 => scheduleStep (schedule w k)

/-- Chunking worker: `fuel` bounds the number of reads; each non-empty read of a
positive `n` consumes at least one element, so `l.length` reads always suffice. -/
def chunksOfAux {α : Type} (n : ℕ) : ℕ → List α → List (List α)
  | 0, _ => []
  | _, [] => []
  | fuel + 1, a :: l => (a :: l).take n :: chunksOfAux n fuel ((a :: l).drop n)

/-- Split a list into consecutive chunks of at most `n` elements (the last may be
shorter); for `n = 0` no chunk is produced, matching a read loop whose
zero-length read immediately reports end of file. -/
def chunksOf {α : Type} (n : ℕ) (l : List α) : List (List α) :=
  if n = 0 then [] else chunksOfAux n l.length l

/-- A 32-bit word from four big-endian bytes. -/
def wordOfBytes (bs : List ℕ) : ℕ :=
  bs.foldl (fun a b => a * 256 + b) 0

/-- Add the compression result back into the chaining hash, componentwise mod `2 ^ 32`. -/
def addState (hs : List ℕ) (st : St8) : List ℕ :=
  match st with
  | (a, b, c, d, e, f, g, h) =>
    [m32 (hs.getD 0 0 + a), m32 (hs.getD 1 0 + b), m32 (hs.getD 2 0 + c),
     m32 (hs.getD 3 0 + d), m32 (hs.getD 4 0 + e), m32 (hs.getD 5 0 + f),
     m32 (hs.getD 6 0 + g), m32 (hs.getD 7 0 + h)]

/-- Process one 64-byte block: build the 64-word schedule, run 64 rounds, add back. -/
def processBlock (hs : List ℕ) (block : List ℕ) : List ℕ :=
  let w0 := (chunksOf 4 block).map wordOfBytes
  let w := schedule w0 48
  let init : St8 := (hs.getD 0 0, hs.getD 1 0, hs.getD 2 0, hs.getD 3 0,
                     hs.getD 4 0, hs.getD 5 0, hs.getD 6 0, hs.getD 7 0)
  addState hs ((w.zip shaK).foldl shaRound init)

/-- The eight big-endian bytes of the 64-bit message bit length. -/
def lenBytes (bits : ℕ) : List ℕ :=
  [(bits >>> 56) % 256, (bits >>> 48) % 256, (bits >>> 40) % 256, (bits >>> 32) % 256,
   (bits >>> 24) % 256, (bits >>> 16) % 256, (bits >>> 8) % 256, bits % 256]

/-- SHA-256 padding: append `0x80`, zeros to 56 mod 64, then the bit length. -/
def padMessage (msg : List ℕ) : List ℕ :=
  let len := msg.length
  let zeros := (119 - len % 64) % 64
  msg ++ 128 :: (List.replicate zeros 0 ++ lenBytes ((8 * len) % 2 ^ 64))

/-- The eight 32-bit words of the SHA-256 digest of a byte list. -/
def sha256words (msg : List ℕ) : List ℕ :=
  (chunksOf 64 (padMessage msg)).foldl processBlock shaH0

/-- The sixteen lowercase hexadecimal digits. -/
def hexDigits : List Char := "0123456789abcdef".data

/-- The lowercase hexadecimal digit of `n % 16`. -/
def hexChar (n : ℕ) : Char := hexDigits.getD (n % 16) '0'

/-- The eight lowercase hex characters of a 32-bit word, most significant first. -/
def wordHex (w : ℕ) : List Char :=
  [hexChar (w >>> 28), hexChar (w >>> 24), hexChar (w >>> 20), hexChar (w >>> 16),
   hexChar (w >>> 12), hexChar (w >>> 8), hexChar (w >>> 4), hexChar w]

/-- The reference SHA-256 digest of a byte list, as 64 lowercase hex characters. -/
def sha256hex (msg : List ℕ) : String :=
  String.mk (List.flatten ((sha256words msg).map wordHex))

/-! ## hashlib model and `calculate_file_hash` (main.py lines 125-172)

hashlib's incremental interface is modelled by its documented semantics: the
hasher state is the byte stream absorbed so far, `update` appends a chunk, and
`hexdigest` returns the SHA-256 of the absorbed stream in lowercase hex. -/

/-- `hash_func.update(chunk)`: absorb one chunk into the hasher state. -/
def hashlibUpdate (state chunk : List ℕ) : List ℕ := state ++ chunk

/-- `hash_func.hexdigest()`: the SHA-256 hex digest of the absorbed stream. -/
def hashlibHexdigest (state : List ℕ) : String := sha256hex state

/-- `calculate_file_hash`: `None` when the file does not exist, otherwise read
the file in `chunk_size`-byte chunks, feed each to the incremental hasher, and
return the final hex digest. The file argument is the observed content
(`none` = path missing). -/
def calculate_file_hash (file : Option (List ℕ)) (chunk_size : ℕ) : Option String :=
  match file with
  | none => none
  | some bytes =>
    some (hashlibHexdigest ((chunksOf chunk_size bytes).foldl hashlibUpdate []))

/-- `HASH_CHUNK_SIZE`: the default 64 KiB chunk size. -/
def HASH_CHUNK_SIZE : ℕ := 65536

/-! ## `wait_for_file_stability` (main.py lines 78-122)

The filesystem during the wait is an oracle giving what poll number `i`
observes: the path missing, a size query error, or a size. -/

/-- What one stability poll observes: `os.path.exists` false, `os.path.getsize`
raising `OSError`/`PermissionError`, or a size in bytes. -/
inductive PollResult : Type where
  | missing : PollResult
  | sizeError : PollResult
  | size : ℕ → PollResult
deriving DecidableEq, Repr

/-- The poll loop of `wait_for_file_stability`: `fuel` iterations remain,
`i` is the current poll number, `prev` is `previous_size` (initially `-1`),
`count` is `stable_count`. A poll that errors on `getsize` consumes an
iteration but changes nothing (`continue`); a size equal to `prev` and
strictly positive increments the counter and succeeds once it reaches
`checks`; any other size resets the counter; `previous_size` is updated on
every sized poll. Exhausted fuel is the timeout: `False`. -/
def stabilityLoop (env : ℕ → PollResult) (checks : ℕ) : ℕ → ℕ → ℤ → ℕ → Bool
  | 0, _, _, _ => false
  | fuel + 1, i, prev, count =>
    match env i with
    | .missing => false
    | .sizeError => stabilityLoop env checks fuel (i + 1) prev count
    | .size n =>
      if (n : ℤ) = prev ∧ 0 < n then
        if checks ≤ count + 1 then true
        else stabilityLoop env checks fuel (i + 1) (n : ℤ) (count + 1)
      else stabilityLoop env checks fuel (i + 1) (n : ℤ) 0

/-- `wait_for_file_stability`: up to `checks * 3` polls, starting with
`previous_size = -1` and `stable_count = 0`. -/
def wait_for_file_stability (env : ℕ → PollResult) (checks : ℕ) : Bool :=
  stabilityLoop env checks (checks * 3) 0 (-1) 0

/-! ## `calculate_file_hash_with_retry` (main.py lines 175-201)

The filesystem across attempts is a pair of oracles: whether the path exists
when attempt `i` starts, and what `calculate_file_hash` returns if invoked on
attempt `i` (`none` = hashing failed). Besides the Python return pair, the
embedding also returns the list of attempt numbers on which the hasher was
actually invoked, so that non-invocation is a provable statement. -/

/-- Python truthiness of an `Optional[str]`: `None` and `""` are falsy. -/
def truthyOpt : Option String → Bool
  | none => false
  | some s => s ≠ ""

/-- The retry loop: on each attempt, a missing path consumes the attempt
without invoking the hasher; otherwise the hasher runs and a truthy result
returns `(hash, True)` immediately. Exhaustion yields `(None, False)`.
The second component lists the attempts on which the hasher ran. -/
def hashRetryAux (ex : ℕ → Bool) (hr : ℕ → Option String) :
    ℕ → ℕ → (Option String × Bool) × List ℕ
  | _, 0 => ((none, false), [])
  | attempt, fuel + 1 =>
    if ex attempt = false then
      hashRetryAux ex hr (attempt + 1) fuel
    else
      let r := hr attempt
      if truthyOpt r then ((r, true), [attempt])
      else
        let rest := hashRetryAux ex hr (attempt + 1) fuel
        (rest.1, attempt :: rest.2)

/-- `calculate_file_hash_with_retry`: `max_retries` attempts starting at 0. -/
def calculate_file_hash_with_retry (ex : ℕ → Bool) (hr : ℕ → Option String)
    (max_retries : ℕ) : (Option String × Bool) × List ℕ :=
  hashRetryAux ex hr 0 max_retries

/-! ## `log_hash_to_manifest` (main.py lines 203-226) -/

/-- Python string formatting with a bare minimum width, `f"{s:12}"`-style:
strings align left, so a short string is padded with spaces on the right. -/
def pyFormatWidth (s : String) (w : ℕ) : String :=
  if w ≤ s.length then s
  else s ++ String.mk (List.replicate (w - s.length) ' ')

/-- `Path(filepath).name` for a file path: the final path component,
accumulated character by character and reset at each separator. -/
def basenameAux : List Char → List Char → List Char
  | [], acc => acc
  | c :: cs, acc => if c = '/' then basenameAux cs [] else basenameAux cs (acc ++ [c])

/-- The base name of a path (its final `/`-separated component). -/
def basename (p : String) : String := String.mk (basenameAux p.data [])

/-- The manifest line `log_hash_to_manifest` appends:
`f"{timestamp} | {event_type:12} | {file_hash} | {filename}\n"` with
`filename = Path(filepath).name`. The timestamp string is an argument (the
embedding of `datetime.now().astimezone().isoformat()`). -/
def log_hash_to_manifest (timestamp filepath file_hash event_type : String) : String :=
  timestamp ++ " | " ++ pyFormatWidth event_type 12 ++ " | " ++ file_hash ++ " | " ++
    basename filepath ++ "\n"

/-! ## `verify_file_integrity` (main.py lines 227-251) -/

/-- `verify_file_integrity`: recompute the digest with `calculate_file_hash`
(the observed file content is the oracle); `False` when that fails, else a
case-insensitive comparison with the expected hash. -/
def verify_file_integrity (file : Option (List ℕ)) (expected_hash : String) : Bool :=
  match calculate_file_hash file HASH_CHUNK_SIZE with
  | none => false
  | some calculated_hash => calculated_hash.toLower == expected_hash.toLower

/-! ## `IntegrityEventHandler` (main.py lines 329-442)

Handler state: `_processing_lock` is a dict defaulting to `False`, embedded as
a function; `_last_modified` is a dict defaulting to `0` that is also measured
(`len`) and pruned, embedded as an association list with unique keys. Time is
`ℚ` (seconds). One processing pass interacts with the world through a
`PassEnv` oracle: the stability outcome, the existence check in
`_process_file_safe`, and the result of `calculate_file_hash_with_retry`.
Externally visible work is recorded as a trace of `HAction`s. -/

/-- The debounce dictionary `_last_modified`. -/
abbrev ModDict := List (String × ℚ)

/-- `d.get(k, 0)`. -/
def dictGet (m : ModDict) (k : String) : ℚ :=
  match m.find? (fun kv => kv.1 = k) with
  | some kv => kv.2
  | none => 0

/-- `d[k] = v`: replace any entry for `k`, keeping keys unique. -/
def dictInsert (m : ModDict) (k : String) (v : ℚ) : ModDict :=
  (k, v) :: m.filter (fun kv => ¬ kv.1 = k)

/-- Handler state: the per-path processing flags and the debounce timestamps. -/
structure HState where
  lock : String → Bool
  lastMod : ModDict

/-- `_set_processing(filepath, state)`. -/
def setLock (s : HState) (p : String) (b : Bool) : HState :=
  { s with lock := fun q => if q = p then b else s.lock q }

/-- Externally visible work of the handler. -/
inductive HAction : Type where
  | stabilityWait : String → HAction
  | hashRetry : String → HAction
  | manifestAppend : String → String → String → HAction
deriving DecidableEq, Repr

/-- The world as one processing pass observes it. -/
structure PassEnv where
  stable : Bool
  fileStillExists : Bool
  hashResult : Option String × Bool

/-- `_process_file_safe(filepath, event_type)`: skip if the file vanished,
else invoke the retry hasher and, on a truthy hash with `success`, append a
manifest record for the event. -/
def process_file_safe (p : String) (event_type : String) (env : PassEnv) : List HAction :=
  if env.fileStillExists = false then []
  else
    HAction.hashRetry p ::
      (if env.hashResult.2 = true ∧ truthyOpt env.hashResult.1 = true then
        match env.hashResult.1 with
        | some h => [HAction.manifestAppend p h event_type]
        | none => []
      else [])

/-- The work performed inside the `try` of a processing pass: one stability
wait, then — only when the gate reports stable — the hash-and-log sequence. -/
def passTrace (p : String) (event_type : String) (env : PassEnv) : List HAction :=
  HAction.stabilityWait p ::
    (if env.stable = true then process_file_safe p event_type env else [])

/-- The `try`/`finally` part of a processing pass, from the point where the
processing flag has already been set: wait for stability, process on success,
and release the flag unconditionally (`finally`). -/
def passRest (s1 : HState) (p : String) (event_type : String) (env : PassEnv) :
    HState × List HAction :=
  (setLock s1 p false, passTrace p event_type env)

/-- The guarded body shared by `on_created` and `on_modified`: mark the path
as processing, then run the `try`/`finally` part. -/
def passBody (s : HState) (p : String) (event_type : String) (env : PassEnv) :
    HState × List HAction :=
  passRest (setLock s p true) p event_type env

/-- `on_created`: ignore directories; drop the notification when the path is
already being processed; otherwise run one guarded pass for `"CREATED"`. -/
def on_created (s : HState) (isDir : Bool) (p : String) (env : PassEnv) :
    HState × List HAction :=
  if isDir = true then (s, [])
  else if s.lock p = true then (s, [])
  else passBody s p "CREATED" env

/-- `on_modified`: ignore directories; drop the notification inside the
1-second debounce window; record the debounce timestamp; drop when the path
is locked; otherwise run one guarded pass for `"MODIFIED"`, then prune the
debounce table if it exceeds 1000 entries, keeping entries newer than
`t - 60`. -/
def on_modified (s : HState) (isDir : Bool) (p : String) (t : ℚ) (env : PassEnv) :
    HState × List HAction :=
  if isDir = true then (s, [])
  else if t - dictGet s.lastMod p < 1 then (s, [])
  else
    let s1 : HState := { s with lastMod := dictInsert s.lastMod p t }
    if s1.lock p = true then (s1, [])
    else
      let r := passBody s1 p "MODIFIED" env
      let s3 := r.1
      let s4 : HState :=
        if 1000 < s3.lastMod.length then
          { s3 with lastMod := s3.lastMod.filter (fun kv => t - 60 < kv.2) }
        else s3
      (s4, r.2)

/-- `on_deleted`: ignore directories; otherwise append a manifest record with
the sentinel digest `"N/A"` and kind `"DELETED"`, touching no handler state. -/
def on_deleted (s : HState) (isDir : Bool) (p : String) : HState × List HAction :=
  if isDir = true then (s, [])
  else (s, [HAction.manifestAppend p "N/A" "DELETED"])

/-- Deliver a sequence of modification notifications (all for path `p`), each
with its own time, against one pass oracle; collect the whole trace. -/
def runModified (s : HState) (p : String) (env : PassEnv) : List ℚ → HState × List HAction
  | [] => (s, [])
  | t :: ts =>
    let r := on_modified s false p t env
    let rest := runModified r.1 p env ts
    (rest.1, r.2 ++ rest.2)

/-- The number of processing passes recorded in a trace: each admitted pass
performs exactly one stability wait. -/
def countPasses (tr : List HAction) : ℕ :=
  (tr.filter (fun a => match a with | HAction.stabilityWait _ => true | _ => false)).length

/-- Two creation notifications for the same path, the second arriving while
the first is still processing: the first passes its admission check and sets
the flag; the second is then handled in full against the flagged state; the
first resumes and finishes its pass. The combined trace is collected. -/
def twoCreated (s : HState) (p : String) (env1 env2 : PassEnv) : HState × List HAction :=
  let s1 := setLock s p true
  let r2 := on_created s1 false p env2
  let r1 := passRest r2.1 p "CREATED" env1
  (r1.1, r2.2 ++ r1.2)

/-! ## Supporting lemmas -/

/-- Chunks of a positive size, given enough fuel, concatenate back to the list. -/
theorem chunksOfAux_flatten {α : Type} (n : ℕ) (hn : 0 < n) :
    ∀ (fuel : ℕ) (l : List α), l.length ≤ fuel → (chunksOfAux n fuel l).flatten = l := by
  intro fuel
  induction fuel with
  | zero =>
    intro l hl
    have : l = [] := List.eq_nil_of_length_eq_zero (Nat.le_zero.mp hl)
    subst this
    rfl
  | succ fuel ih =>
    intro l hl
    cases l with
    | nil => rfl
    | cons a l =>
      simp only [chunksOfAux, List.flatten_cons]
      have hlen : ((a :: l).drop n).length ≤ fuel := by
        rw [List.length_drop, List.length_cons]
        rw [List.length_cons] at hl
        omega
      rw [ih ((a :: l).drop n) hlen]
      exact List.take_append_drop n (a :: l)

/-- For a positive chunk size, chunking then concatenating is the identity. -/
theorem chunksOf_flatten {α : Type} (n : ℕ) (hn : 0 < n) (l : List α) :
    (chunksOf n l).flatten = l := by
  unfold chunksOf
  rw [if_neg (Nat.pos_iff_ne_zero.mp hn)]
  exact chunksOfAux_flatten n hn l.length l le_rfl

/-- Folding the incremental hasher update over chunks absorbs their concatenation. -/
theorem foldl_hashlibUpdate (L : List (List ℕ)) :
    ∀ acc : List ℕ, L.foldl hashlibUpdate acc = acc ++ L.flatten := by
  induction L with
  | nil => intro acc; simp
  | cons x L ih =>
    intro acc
    simp only [List.foldl_cons, List.flatten_cons, ih, hashlibUpdate, List.append_assoc]

/-- `addState` always yields eight words. -/
theorem addState_length (hs : List ℕ) (st : St8) : (addState hs st).length = 8 := by
  obtain ⟨a, b, c, d, e, f, g, h⟩ := st
  rfl

/-- Block processing preserves the eight-word shape. -/
theorem processBlock_length (hs block : List ℕ) : (processBlock hs block).length = 8 := by
  unfold processBlock
  exact addState_length hs _

/-- Folding block processing from an eight-word hash yields eight words. -/
theorem foldl_processBlock_length :
    ∀ (blocks : List (List ℕ)) (hs : List ℕ), hs.length = 8 →
      (blocks.foldl processBlock hs).length = 8 := by
  intro blocks
  induction blocks with
  | nil => intro hs h; exact h
  | cons b blocks ih =>
    intro hs _
    rw [List.foldl_cons]
    exact ih (processBlock hs b) (processBlock_length hs b)

/-- The SHA-256 digest has eight words. -/
theorem sha256words_length (msg : List ℕ) : (sha256words msg).length = 8 :=
  foldl_processBlock_length _ shaH0 rfl

/-- Rendering a word list in hex gives eight characters per word. -/
theorem flatten_wordHex_length (ws : List ℕ) :
    (List.flatten (ws.map wordHex)).length = 8 * ws.length := by
  induction ws with
  | nil => rfl
  | cons w ws ih =>
    simp only [List.map_cons, List.flatten_cons, List.length_append, ih, List.length_cons]
    have h8 : (wordHex w).length = 8 := rfl
    rw [h8]
    ring

/-- Each rendered hex digit is one of the sixteen lowercase digits. -/
theorem hexChar_mem (n : ℕ) : hexChar n ∈ hexDigits := by
  unfold hexChar
  have h : n % 16 < 16 := Nat.mod_lt _ (by norm_num)
  generalize n % 16 = k at h
  interval_cases k <;> simp [hexDigits]

/-- Every character of a rendered word is a lowercase hex digit. -/
theorem wordHex_mem (w : ℕ) : ∀ c ∈ wordHex w, c ∈ hexDigits := by
  intro c hc
  simp only [wordHex, List.mem_cons, List.not_mem_nil, or_false] at hc
  rcases hc with h | h | h | h | h | h | h | h <;> (subst h; exact hexChar_mem _)

/-! ## The claims -/

set_option maxRecDepth 8000 in
/-- C1: for every byte sequence S, `calculate_file_hash` on a file with content
S returns exactly the reference SHA-256 digest of S rendered as 64 lowercase
hexadecimal characters — including the empty S and an S of 100 chunks of the
byte 0x58 spanning many 64 KiB chunk boundaries; the empty-S digest is the
standard value, whose 64 characters properly extend the 63-character digest
string quoted in the spec. -/
theorem c1_hash_matches_reference (S : List ℕ) :
    calculate_file_hash (some S) HASH_CHUNK_SIZE = some (sha256hex S) ∧
    (sha256hex S).length = 64 ∧
    (∀ c ∈ (sha256hex S).data, c ∈ hexDigits) ∧
    calculate_file_hash (some (List.replicate (100 * 65536) 88)) HASH_CHUNK_SIZE =
      some (sha256hex (List.replicate (100 * 65536) 88)) ∧
    sha256hex [] = "e3b0c44298fc1c149afbf4c8996fb92427ae41e4649b934ca495991b7852b855" ∧
    ("e3b0c44298fc1c149afbf4c8996fb92427ae41e4649b934ca495991b7852b85" : String).length = 63 := by
  have key : ∀ T : List ℕ, calculate_file_hash (some T) HASH_CHUNK_SIZE = some (sha256hex T) := by
    intro T
    show some (hashlibHexdigest ((chunksOf HASH_CHUNK_SIZE T).foldl hashlibUpdate [])) = _
    rw [foldl_hashlibUpdate, List.nil_append,
        chunksOf_flatten HASH_CHUNK_SIZE (by norm_num [HASH_CHUNK_SIZE]) T]
    rfl
  refine ⟨key S, ?_, ?_, key _, by decide, by decide⟩
  · show (List.flatten ((sha256words S).map wordHex)).length = 64
    rw [flatten_wordHex_length, sha256words_length]
  · intro c hc
    have hc2 : c ∈ List.flatten ((sha256words S).map wordHex) := hc
    rcases List.mem_flatten.mp hc2 with ⟨l, hl, hcl⟩
    rcases List.mem_map.mp hl with ⟨w, _, rfl⟩
    exact wordHex_mem w c hcl

/-- With every poll observing size 0, the stability loop returns `false` from
any starting state: the counter can never increment past the `0 < n` guard. -/
theorem stabilityLoop_zero_sizes (env : ℕ → PollResult) (checks : ℕ)
    (henv : ∀ i, env i = PollResult.size 0) :
    ∀ (fuel i : ℕ) (prev : ℤ) (count : ℕ),
      stabilityLoop env checks fuel i prev count = false := by
  intro fuel
  induction fuel with
  | zero => intro i prev count; rfl
  | succ fuel ih =>
    intro i prev count
    simp only [stabilityLoop, henv i]
    have hneg : ¬ (((0 : ℕ) : ℤ) = prev ∧ 0 < (0 : ℕ)) := by
      rintro ⟨-, h⟩
      exact absurd h (lt_irrefl 0)
    rw [if_neg hneg]
    exact ih (i + 1) ((0 : ℕ) : ℤ) 0

/-- C3: for every required check count of at least 1, `wait_for_file_stability`
on a file observed with size 0 at every poll terminates within its
`3 × checks` poll budget with result `False` — a zero-size poll never
increments the stability counter, so the wait never reports stable. -/
theorem c3_zero_byte_never_stable (env : ℕ → PollResult) (checks : ℕ)
    (hchecks : 1 ≤ checks) (henv : ∀ i, env i = PollResult.size 0) :
    wait_for_file_stability env checks = false :=
  stabilityLoop_zero_sizes env checks henv (checks * 3) 0 (-1) 0

/-- C3 witness: the default three checks against an always-empty file. -/
theorem c3_zero_byte_never_stable_witness :
    wait_for_file_stability (fun _ => PollResult.size 0) 3 = false :=
  c3_zero_byte_never_stable (fun _ => PollResult.size 0) 3 (by norm_num) (fun _ => rfl)

/-- Attempts on which the path is missing never invoke the hasher, and every
recorded hasher invocation lies inside the attempt window. -/
theorem hashRetryAux_trace (ex : ℕ → Bool) (hr : ℕ → Option String) :
    ∀ (fuel attempt : ℕ), ∀ i ∈ (hashRetryAux ex hr attempt fuel).2,
      ex i = true ∧ attempt ≤ i ∧ i < attempt + fuel := by
  intro fuel
  induction fuel with
  | zero => intro attempt i hi; exact absurd hi (List.not_mem_nil i)
  | succ fuel ih =>
    intro attempt i hi
    by_cases hex : ex attempt = false
    · rw [show hashRetryAux ex hr attempt (fuel + 1) =
          hashRetryAux ex hr (attempt + 1) fuel by simp [hashRetryAux, hex]] at hi
      obtain ⟨h1, h2, h3⟩ := ih (attempt + 1) i hi
      exact ⟨h1, by omega, by omega⟩
    · simp only [hashRetryAux, if_neg hex] at hi
      by_cases htr : truthyOpt (hr attempt) = true
      · rw [if_pos htr] at hi
        simp only [List.mem_singleton] at hi
        subst hi
        exact ⟨Bool.of_not_eq_false hex, le_rfl, by omega⟩
      · rw [if_neg htr] at hi
        simp only [List.mem_cons] at hi
        rcases hi with rfl | hi
        · exact ⟨Bool.of_not_eq_false hex, le_rfl, by omega⟩
        · obtain ⟨h1, h2, h3⟩ := ih (attempt + 1) i hi
          exact ⟨h1, by omega, by omega⟩

/-- When every attempt in the window fails (path missing or hasher failing),
the retry loop exhausts and reports `(None, False)`. -/
theorem hashRetryAux_exhaust (ex : ℕ → Bool) (hr : ℕ → Option String) :
    ∀ (fuel attempt : ℕ),
      (∀ i, attempt ≤ i → i < attempt + fuel → ex i = false ∨ hr i = none) →
      (hashRetryAux ex hr attempt fuel).1 = (none, false) := by
  intro fuel
  induction fuel with
  | zero => intro attempt _; rfl
  | succ fuel ih =>
    intro attempt hfail
    by_cases hex : ex attempt = false
    · rw [show hashRetryAux ex hr attempt (fuel + 1) =
          hashRetryAux ex hr (attempt + 1) fuel by simp [hashRetryAux, hex]]
      exact ih (attempt + 1) (fun i h1 h2 => hfail i (by omega) (by omega))
    · have hnone : hr attempt = none := by
        rcases hfail attempt le_rfl (by omega) with h | h
        · exact absurd h hex
        · exact h
      have htr : truthyOpt (hr attempt) = false := by rw [hnone]; rfl
      simp only [hashRetryAux, if_neg hex, htr, Bool.false_eq_true, if_false]
      exact ih (attempt + 1) (fun i h1 h2 => hfail i (by omega) (by omega))

/-- C5: in `calculate_file_hash_with_retry`, an attempt on which the path does
not exist consumes one of the `max_retries` attempts without invoking the
hasher (every recorded hasher invocation happens on an attempt with the path
present, inside the attempt window), and when all attempts fail the call
returns the failed pair `(None, False)` instead of raising. -/
theorem c5_retry_exhaustion (ex : ℕ → Bool) (hr : ℕ → Option String) (max_retries : ℕ)
    (hfail : ∀ i, i < max_retries → ex i = false ∨ hr i = none) :
    (calculate_file_hash_with_retry ex hr max_retries).1 = (none, false) ∧
    (∀ i ∈ (calculate_file_hash_with_retry ex hr max_retries).2,
       ex i = true ∧ i < max_retries) ∧
    (∀ i, ex i = false → i ∉ (calculate_file_hash_with_retry ex hr max_retries).2) := by
  refine ⟨?_, ?_, ?_⟩
  · exact hashRetryAux_exhaust ex hr max_retries 0 (fun i _ h2 => hfail i (by omega))
  · intro i hi
    obtain ⟨h1, -, h3⟩ := hashRetryAux_trace ex hr max_retries 0 i hi
    exact ⟨h1, by omega⟩
  · intro i hex hi
    obtain ⟨h1, -, -⟩ := hashRetryAux_trace ex hr max_retries 0 i hi
    rw [hex] at h1
    exact Bool.false_ne_true h1

/-- C5 witness: three attempts against an always-missing path. -/
theorem c5_retry_exhaustion_witness :
    (calculate_file_hash_with_retry (fun _ => false) (fun _ => none) 3).1 = (none, false) ∧
    (∀ i ∈ (calculate_file_hash_with_retry (fun _ => false) (fun _ => none) 3).2,
       (fun _ => false : ℕ → Bool) i = true ∧ i < 3) ∧
    (∀ i, (fun _ => false : ℕ → Bool) i = false →
       i ∉ (calculate_file_hash_with_retry (fun _ => false) (fun _ => none) 3).2) :=
  c5_retry_exhaustion (fun _ => false) (fun _ => none) 3 (fun _ _ => Or.inl rfl)

/-- C6: `verify_file_integrity` returns `True` exactly when the recomputed
digest is present and matches the expected digest case-insensitively; a
failed digest computation returns `False`, the same value as a mismatch, so
the caller cannot tell the two apart. -/
theorem c6_verify_case_insensitive (file : Option (List ℕ)) (expected_hash : String) :
    (verify_file_integrity file expected_hash = true ↔
      ∃ h, calculate_file_hash file HASH_CHUNK_SIZE = some h ∧
        h.toLower = expected_hash.toLower) ∧
    (calculate_file_hash file HASH_CHUNK_SIZE = none →
      verify_file_integrity file expected_hash = false) ∧
    verify_file_integrity none expected_hash = false := by
  refine ⟨?_, ?_, rfl⟩
  · cases hc : calculate_file_hash file HASH_CHUNK_SIZE with
    | none =>
      simp only [verify_file_integrity, hc]
      constructor
      · intro h; exact absurd h (Bool.false_ne_true)
      · rintro ⟨h, hh, -⟩; exact absurd hh (by simp)
    | some d =>
      simp only [verify_file_integrity, hc, beq_iff_eq]
      constructor
      · intro h; exact ⟨d, rfl, h⟩
      · rintro ⟨h, hh, hlow⟩
        cases hh
        exact hlow
  · intro hc
    simp only [verify_file_integrity, hc]

/-- Python left-justification: the bare-width format always appends the
space padding needed to reach the width (none when already wide enough). -/
theorem pyFormatWidth_eq (s : String) (w : ℕ) :
    pyFormatWidth s w = s ++ String.mk (List.replicate (w - s.length) ' ') := by
  unfold pyFormatWidth
  split
  · next h =>
    rw [Nat.sub_eq_zero_of_le h]
    cases s with
    | mk data => show String.mk data = String.mk (data ++ []); rw [List.append_nil]
  · rfl

/-- The base-name accumulator never contains a separator. -/
theorem basenameAux_no_slash :
    ∀ (cs acc : List Char), (∀ c ∈ acc, c ≠ '/') →
      ∀ c ∈ basenameAux cs acc, c ≠ '/' := by
  intro cs
  induction cs with
  | nil => intro acc hacc c hc; exact hacc c hc
  | cons a cs ih =>
    intro acc hacc c hc
    simp only [basenameAux] at hc
    by_cases ha : a = '/'
    · rw [if_pos ha] at hc
      exact ih [] (by intro x hx; exact absurd hx (List.not_mem_nil x)) c hc
    · rw [if_neg ha] at hc
      refine ih (acc ++ [a]) ?_ c hc
      intro x hx
      rcases List.mem_append.mp hx with h | h
      · exact hacc x h
      · rw [List.mem_singleton] at h; subst h; exact ha

/-- C7 counterexample: at a concrete input the manifest line pads the event
kind on the right (left-justified), not on the left as the claim states. -/
theorem c7_manifest_counterexample :
    log_hash_to_manifest "T" "/tmp/a.txt" "d41d" "CREATED" =
      "T | CREATED      | d41d | a.txt\n" ∧
    log_hash_to_manifest "T" "/tmp/a.txt" "d41d" "CREATED" ≠
      "T |      CREATED | d41d | a.txt\n" := by
  constructor
  · decide
  · decide

/-- C7 as amended: every manifest line has the format
`<timestamp> | <event-kind, left-justified (right-padded) to at least 12
chars> | <digest-or-sentinel> | <basename>` terminated by a newline, the
event field is at least 12 characters wide, and the filename field is the
base name of the path (it contains no path separator). -/
theorem c7_manifest_line_format (timestamp filepath file_hash event_type : String) :
    log_hash_to_manifest timestamp filepath file_hash event_type =
      timestamp ++ " | " ++
        (event_type ++ String.mk (List.replicate (12 - event_type.length) ' ')) ++ " | " ++
        file_hash ++ " | " ++ basename filepath ++ "\n" ∧
    12 ≤ (pyFormatWidth event_type 12).length ∧
    (∀ c ∈ (basename filepath).data, c ≠ '/') := by
  refine ⟨?_, ?_, ?_⟩
  · unfold log_hash_to_manifest
    rw [pyFormatWidth_eq]
  · rw [pyFormatWidth_eq, String.length_append]
    have : (String.mk (List.replicate (12 - event_type.length) ' ')).length =
        12 - event_type.length := by
      show (List.replicate (12 - event_type.length) ' ').length = _
      exact List.length_replicate _ _
    rw [this]
    omega
  · intro c hc
    exact basenameAux_no_slash filepath.data [] (fun x hx => absurd hx (List.not_mem_nil x)) c hc

/-- Setting the processing flag for a path is visible at that path. -/
theorem setLock_lock_self (s : HState) (p : String) (b : Bool) :
    (setLock s p b).lock p = b := by
  simp [setLock]

/-- Setting the processing flag leaves the debounce table unchanged. -/
theorem setLock_lastMod (s : HState) (p : String) (b : Bool) :
    (setLock s p b).lastMod = s.lastMod := rfl

/-- Reading back a freshly inserted debounce timestamp. -/
theorem dictGet_insert (m : ModDict) (k : String) (v : ℚ) :
    dictGet (dictInsert m k v) k = v := by
  unfold dictInsert dictGet
  rw [List.find?_cons_of_pos _ (by simp)]

/-- The debounce prune keeps the entry just inserted at the current time. -/
theorem dictGet_insert_filter (m : ModDict) (p : String) (t : ℚ) :
    dictGet ((dictInsert m p t).filter (fun kv => t - 60 < kv.2)) p = t := by
  unfold dictInsert
  rw [List.filter_cons_of_pos (by simp only [decide_eq_true_eq]; linarith)]
  unfold dictGet
  rw [List.find?_cons_of_pos _ (by simp)]

/-- A creation notification for a path whose processing flag is set is dropped:
state untouched, no stability wait, no hashing, no manifest append. -/
theorem on_created_locked_drop (s : HState) (p : String) (env : PassEnv)
    (hlock : s.lock p = true) :
    on_created s false p env = (s, []) := by
  unfold on_created
  rw [if_neg Bool.false_ne_true, if_pos hlock]

/-- A modification notification inside the debounce window is dropped:
state untouched, no actions. -/
theorem on_modified_debounce_drop (s : HState) (p : String) (t : ℚ) (env : PassEnv)
    (hwin : t - dictGet s.lastMod p < 1) :
    on_modified s false p t env = (s, []) := by
  unfold on_modified
  rw [if_neg Bool.false_ne_true, if_pos hwin]

/-- `_process_file_safe` performs no stability wait. -/
theorem countPasses_process_file_safe (p e : String) (env : PassEnv) :
    countPasses (process_file_safe p e env) = 0 := by
  unfold process_file_safe
  by_cases hex : env.fileStillExists = false
  · rw [if_pos hex]; rfl
  · rw [if_neg hex]
    by_cases hok : env.hashResult.2 = true ∧ truthyOpt env.hashResult.1 = true
    · rw [if_pos hok]
      cases hr : env.hashResult.1 with
      | none => rfl
      | some h => rfl
    · rw [if_neg hok]; rfl

/-- One admitted pass records exactly one stability wait. -/
theorem countPasses_passTrace (p e : String) (env : PassEnv) :
    countPasses (passTrace p e env) = 1 := by
  have h0 : countPasses (if env.stable = true then process_file_safe p e env else []) = 0 := by
    split
    · exact countPasses_process_file_safe p e env
    · rfl
  unfold passTrace
  unfold countPasses at h0 ⊢
  rw [List.filter_cons_of_pos (by rfl), List.length_cons, h0]

/-- Under a cooperative environment (stable file, present at processing time,
hash succeeding with a non-empty digest), the `try` part of a pass performs
exactly the hash-and-log sequence once. -/
theorem passTrace_success (p e h : String) (env : PassEnv)
    (hstable : env.stable = true) (hexists : env.fileStillExists = true)
    (hhash : env.hashResult = (some h, true)) (hne : ¬ h = "") :
    passTrace p e env =
      [HAction.stabilityWait p, HAction.hashRetry p, HAction.manifestAppend p h e] := by
  unfold passTrace process_file_safe
  rw [if_pos hstable, if_neg (by rw [hexists]; simp), hhash]
  rw [if_pos (by refine ⟨rfl, ?_⟩; simp [truthyOpt, hne])]

/-- An admitted, unlocked modification notification runs one pass: its trace is
the pass trace, the debounce stamp reads back as the notification time, and the
processing flag ends released. -/
theorem on_modified_admitted_unlocked (s : HState) (p : String) (t : ℚ) (env : PassEnv)
    (hadm : ¬ t - dictGet s.lastMod p < 1) (hlock : s.lock p = false) :
    (on_modified s false p t env).2 = passTrace p "MODIFIED" env ∧
    dictGet ((on_modified s false p t env).1).lastMod p = t ∧
    ((on_modified s false p t env).1).lock p = false := by
  unfold on_modified
  rw [if_neg Bool.false_ne_true, if_neg hadm]
  dsimp only
  rw [if_neg (by rw [hlock]; simp)]
  unfold passBody passRest
  dsimp only
  refine ⟨rfl, ?_, ?_⟩
  · split
    · exact dictGet_insert_filter s.lastMod p t
    · exact dictGet_insert s.lastMod p t
  · split
    · exact setLock_lock_self _ p false
    · exact setLock_lock_self _ p false

/-- An admitted modification notification that finds the path locked records
the debounce timestamp but does nothing else. -/
theorem on_modified_admitted_locked (s : HState) (p : String) (t : ℚ) (env : PassEnv)
    (hadm : ¬ t - dictGet s.lastMod p < 1) (hlock : s.lock p = true) :
    on_modified s false p t env = ({ s with lastMod := dictInsert s.lastMod p t }, []) := by
  unfold on_modified
  rw [if_neg Bool.false_ne_true, if_neg hadm]
  dsimp only
  rw [if_pos hlock]

/-- Whatever else happens, an admitted modification notification leaves the
debounce stamp for its path at the notification time. -/
theorem on_modified_stamp (s : HState) (p : String) (t : ℚ) (env : PassEnv)
    (hadm : ¬ t - dictGet s.lastMod p < 1) :
    dictGet ((on_modified s false p t env).1).lastMod p = t := by
  by_cases hlock : s.lock p = true
  · rw [on_modified_admitted_locked s p t env hadm hlock]
    exact dictGet_insert s.lastMod p t
  · exact (on_modified_admitted_unlocked s p t env hadm (Bool.of_not_eq_true hlock)).2.1

/-- A run of identical-time modification notifications that starts inside the
debounce window drops every notification. -/
theorem runModified_all_dropped (p : String) (env : PassEnv) (t : ℚ) :
    ∀ (k : ℕ) (s : HState), t - dictGet s.lastMod p < 1 →
      runModified s p env (List.replicate k t) = (s, []) := by
  intro k
  induction k with
  | zero => intro s _; rfl
  | succ k ih =>
    intro s h
    rw [List.replicate_succ]
    show runModified s p env (t :: List.replicate k t) = (s, [])
    unfold runModified
    rw [on_modified_debounce_drop s p t env h]
    dsimp only
    rw [ih s h]
    rfl

/-- A single modification notification records at most one processing pass. -/
theorem countPasses_on_modified_le_one (s : HState) (p : String) (t : ℚ) (env : PassEnv) :
    countPasses (on_modified s false p t env).2 ≤ 1 := by
  by_cases hadm : t - dictGet s.lastMod p < 1
  · rw [on_modified_debounce_drop s p t env hadm]
    exact Nat.zero_le 1
  · by_cases hlock : s.lock p = true
    · rw [on_modified_admitted_locked s p t env hadm hlock]
      exact Nat.zero_le 1
    · rw [(on_modified_admitted_unlocked s p t env hadm (Bool.of_not_eq_true hlock)).1,
          countPasses_passTrace]

/-- C2: a creation notification for a path whose per-path processing flag is
already set performs no stability wait, no hashing, and no manifest append
(it returns with the state untouched and an empty trace); hence two creation
notifications for the same path, the second arriving while the first is still
processing, perform the hash-and-log sequence exactly once. -/
theorem c2_at_most_one_pass_per_path (s : HState) (p h : String) (env1 env2 : PassEnv)
    (hlock : s.lock p = false) (hstable : env1.stable = true)
    (hexists : env1.fileStillExists = true) (hhash : env1.hashResult = (some h, true))
    (hne : ¬ h = "") :
    (∀ s2 : HState, s2.lock p = true → on_created s2 false p env2 = (s2, [])) ∧
    (twoCreated s p env1 env2).2 =
      [HAction.stabilityWait p, HAction.hashRetry p, HAction.manifestAppend p h "CREATED"] ∧
    countPasses (twoCreated s p env1 env2).2 = 1 := by
  have hdrop : on_created (setLock s p true) false p env2 = (setLock s p true, []) :=
    on_created_locked_drop _ p env2 (setLock_lock_self s p true)
  have htrace : (twoCreated s p env1 env2).2 = passTrace p "CREATED" env1 := by
    unfold twoCreated
    dsimp only
    rw [hdrop]
    unfold passRest
    dsimp only
    rw [List.nil_append]
  refine ⟨fun s2 h2 => on_created_locked_drop s2 p env2 h2, ?_, ?_⟩
  · rw [htrace]
    exact passTrace_success p "CREATED" h env1 hstable hexists hhash hne
  · rw [htrace]
    exact countPasses_passTrace p "CREATED" env1

/-- C2 witness: a fresh handler state, a cooperative environment, and the
digest `"ab"`. -/
theorem c2_at_most_one_pass_per_path_witness :
    (∀ s2 : HState, s2.lock "f.txt" = true →
       on_created s2 false "f.txt" (PassEnv.mk true true (some "ab", true)) = (s2, [])) ∧
    (twoCreated (HState.mk (fun _ => false) []) "f.txt"
        (PassEnv.mk true true (some "ab", true)) (PassEnv.mk true true (some "ab", true))).2 =
      [HAction.stabilityWait "f.txt", HAction.hashRetry "f.txt",
       HAction.manifestAppend "f.txt" "ab" "CREATED"] ∧
    countPasses (twoCreated (HState.mk (fun _ => false) []) "f.txt"
        (PassEnv.mk true true (some "ab", true)) (PassEnv.mk true true (some "ab", true))).2 = 1 :=
  c2_at_most_one_pass_per_path (HState.mk (fun _ => false) []) "f.txt" "ab"
    (PassEnv.mk true true (some "ab", true)) (PassEnv.mk true true (some "ab", true))
    rfl rfl rfl rfl (by decide)

/-- C4: a modification notification inside the 1-second debounce window of the
last accepted one is dropped without starting a pass and without changing the
per-path state; five modification notifications fired with no delay between
them (same clock reading) yield at most two processing passes. -/
theorem c4_debounce_bounds_passes (s : HState) (p : String) (t : ℚ) (env : PassEnv)
    (hwin : t - dictGet s.lastMod p < 1) :
    on_modified s false p t env = (s, []) ∧
    (∀ (s0 : HState) (t0 : ℚ) (env0 : PassEnv),
       countPasses (runModified s0 p env0 [t0, t0, t0, t0, t0]).2 ≤ 2) := by
  refine ⟨on_modified_debounce_drop s p t env hwin, ?_⟩
  intro s0 t0 env0
  show countPasses (runModified s0 p env0 (t0 :: List.replicate 4 t0)).2 ≤ 2
  by_cases h1 : t0 - dictGet s0.lastMod p < 1
  · rw [show (t0 :: List.replicate 4 t0) = List.replicate 5 t0 from rfl,
        runModified_all_dropped p env0 t0 5 s0 h1]
    exact Nat.zero_le 2
  · have hstamp := on_modified_stamp s0 p t0 env0 h1
    have hrest : runModified ((on_modified s0 false p t0 env0).1) p env0
        (List.replicate 4 t0) = ((on_modified s0 false p t0 env0).1, []) :=
      runModified_all_dropped p env0 t0 4 _ (by rw [hstamp, sub_self]; norm_num)
    unfold runModified
    dsimp only
    rw [hrest]
    dsimp only
    rw [List.append_nil]
    exact le_trans (countPasses_on_modified_le_one s0 p t0 env0) (by norm_num)

/-- C4 witness: a notification at time 0 against a fresh state (window open
because the default last-accepted stamp is 0). -/
theorem c4_debounce_bounds_passes_witness :
    on_modified (HState.mk (fun _ => false) []) false "f.txt" 0
        (PassEnv.mk true true (some "ab", true)) = (HState.mk (fun _ => false) [], []) ∧
    (∀ (s0 : HState) (t0 : ℚ) (env0 : PassEnv),
       countPasses (runModified s0 "f.txt" env0 [t0, t0, t0, t0, t0]).2 ≤ 2) :=
  c4_debounce_bounds_passes (HState.mk (fun _ => false) []) "f.txt" 0
    (PassEnv.mk true true (some "ab", true)) (by norm_num [dictGet])

/-- C8: a deletion notification on a non-directory path appends exactly one
manifest record with the sentinel digest `"N/A"` and kind `"DELETED"`, never a
stability wait or hasher invocation, leaves the state untouched, and its trace
does not depend on the per-path lock or debounce state. -/
theorem c8_deletion_writes_sentinel (s s2 : HState) (p : String) :
    on_deleted s false p = (s, [HAction.manifestAppend p "N/A" "DELETED"]) ∧
    (∀ a ∈ (on_deleted s false p).2, (∀ q, ¬ a = HAction.stabilityWait q) ∧
       (∀ q, ¬ a = HAction.hashRetry q)) ∧
    (on_deleted s2 false p).2 = (on_deleted s false p).2 := by
  have he : ∀ s3 : HState, on_deleted s3 false p =
      (s3, [HAction.manifestAppend p "N/A" "DELETED"]) := by
    intro s3
    unfold on_deleted
    rw [if_neg Bool.false_ne_true]
  refine ⟨he s, ?_, ?_⟩
  · rw [he s]
    intro a ha
    rw [show ((s, [HAction.manifestAppend p "N/A" "DELETED"]) :
        HState × List HAction).2 = [HAction.manifestAppend p "N/A" "DELETED"] from rfl,
      List.mem_singleton] at ha
    subst ha
    exact ⟨fun q h => HAction.noConfusion h, fun q h => HAction.noConfusion h⟩
  · rw [he s, he s2]

/-- C9: for every admitted processing pass — creation or modification on a
non-directory path that passed the lock (and, for modifications, debounce)
checks — the per-path processing flag is false again when the handler
returns, whatever the stability, existence, and hashing outcomes were. -/
theorem c9_flag_released_on_every_exit (s : HState) (p : String) (t : ℚ)
    (env : PassEnv) (hlock : s.lock p = false) :
    ((on_created s false p env).1).lock p = false ∧
    ((on_modified s false p t env).1).lock p = false := by
  constructor
  · unfold on_created
    rw [if_neg Bool.false_ne_true, if_neg (by rw [hlock]; simp)]
    unfold passBody passRest
    exact setLock_lock_self _ p false
  · by_cases hadm : t - dictGet s.lastMod p < 1
    · rw [on_modified_debounce_drop s p t env hadm]
      exact hlock
    · exact (on_modified_admitted_unlocked s p t env hadm hlock).2.2

/-- C9 witness: a fresh state, with an environment on which the stability wait
fails (an early-exit path). -/
theorem c9_flag_released_on_every_exit_witness :
    ((on_created (HState.mk (fun _ => false) []) false "f.txt"
        (PassEnv.mk false false (none, false))).1).lock "f.txt" = false ∧
    ((on_modified (HState.mk (fun _ => false) []) false "f.txt" 7
        (PassEnv.mk false false (none, false))).1).lock "f.txt" = false :=
  c9_flag_released_on_every_exit (HState.mk (fun _ => false) []) "f.txt" 7
    (PassEnv.mk false false (none, false)) rfl

/-- C10: in `on_modified` the debounce timestamp is recorded before the lock
check: a notification that passes the debounce window but finds the path
locked still stores its time and does nothing else; in every admitted case the
stored stamp is the notification time — the time of the last notification that
passed debounce, not of the last completed pass — and a further notification
within 1 second of it is dropped. -/
theorem c10_stamp_recorded_before_lock (s : HState) (p : String) (t t2 : ℚ)
    (env env2 : PassEnv) (hadm : ¬ t - dictGet s.lastMod p < 1) :
    (s.lock p = true → on_modified s false p t env =
      ({ s with lastMod := dictInsert s.lastMod p t }, [])) ∧
    dictGet ((on_modified s false p t env).1).lastMod p = t ∧
    (t2 - t < 1 → on_modified ((on_modified s false p t env).1) false p t2 env2 =
      ((on_modified s false p t env).1, [])) := by
  have hstamp := on_modified_stamp s p t env hadm
  refine ⟨?_, hstamp, ?_⟩
  · intro hlock
    exact on_modified_admitted_locked s p t env hadm hlock
  · intro hwin
    apply on_modified_debounce_drop
    rw [hstamp]
    exact hwin

/-- C10 witness: a locked fresh state, a notification at time 7, and a second
one at time 7.5. -/
theorem c10_stamp_recorded_before_lock_witness :
    ((HState.mk (fun _ => true) [] : HState).lock "f.txt" = true →
      on_modified (HState.mk (fun _ => true) []) false "f.txt" 7
          (PassEnv.mk true true (some "ab", true)) =
        ({ HState.mk (fun _ => true) [] with
            lastMod := dictInsert (HState.mk (fun _ => true) [] : HState).lastMod "f.txt" 7 }, [])) ∧
    dictGet ((on_modified (HState.mk (fun _ => true) []) false "f.txt" 7
        (PassEnv.mk true true (some "ab", true))).1).lastMod "f.txt" = 7 ∧
    ((15 / 2 : ℚ) - 7 < 1 →
      on_modified ((on_modified (HState.mk (fun _ => true) []) false "f.txt" 7
          (PassEnv.mk true true (some "ab", true))).1) false "f.txt" (15 / 2)
          (PassEnv.mk true true (some "ab", true)) =
        ((on_modified (HState.mk (fun _ => true) []) false "f.txt" 7
            (PassEnv.mk true true (some "ab", true))).1, [])) :=
  c10_stamp_recorded_before_lock (HState.mk (fun _ => true) []) "f.txt" 7 (15 / 2)
    (PassEnv.mk true true (some "ab", true)) (PassEnv.mk true true (some "ab", true))
    (by norm_num [dictGet])
